import Mathlib

set_option linter.unusedVariables false

/-!
Verification of `cupy/cuda/memory_hook.py`: the thread-local memory-hook
registry, scoped registration (`__enter__` / `__exit__`), the six default
no-op callbacks, and the callback fan-out performed by the memory pool.

The registry is a Python `collections.OrderedDict` stored in a
`threading.local`; we embed it as an association list in insertion order,
and the thread-local store as a function from thread ids to registries
(a missing entry is the lazily-created empty dict).
-/

namespace MemoryHookSpec

/-- A memory hook instance. In the source, `MemoryHook` is a class with a
class-level attribute `name = 'MemoryHook'` inherited by subclasses that do
not override it; we embed instances as a structure whose `name` field
defaults to that constant. `hookId` distinguishes instances. -/
structure MemoryHook where
  hookId : Nat
  name : String := "MemoryHook"
deriving DecidableEq, Repr

/-- One thread's registry: the `OrderedDict` mapping hook names to hooks,
kept as an association list in insertion order. -/
abbrev Registry := List (String × MemoryHook)

/-- The keys of the registry, in iteration (= insertion) order. -/
def hookNames (reg : Registry) : List String := reg.map Prod.fst

/-- Python's `self.name in memory_hooks`: key membership test. -/
def containsName (reg : Registry) (n : String) : Bool :=
  (hookNames reg).contains n

/-- Errors surfaced by the registry operations. `__enter__` raises
`KeyError('memory hook %s already exists' ...)` on a duplicate name (the
spec's DuplicateNameError); `del d[name]` in `__exit__` raises `KeyError`
on a missing name (the spec's NotFoundError); `bodyError` stands for an
exception raised by user code inside a `with` block. -/
inductive PyErr where
  | duplicateName (n : String)
  | notFound (n : String)
  | bodyError
deriving DecidableEq, Repr

/-- `MemoryHook.__enter__`:
if `self.name in memory_hooks: raise KeyError(...)`, else
`memory_hooks[self.name] = self` (a new `OrderedDict` key is appended at
the end). Returns the registry after the call plus the exception, if any. -/
def hookEnter (reg : Registry) (h : MemoryHook) : Registry × Option PyErr :=
  if containsName reg h.name then (reg, some (.duplicateName h.name))
  else (reg ++ [(h.name, h)], none)

/-- `MemoryHook.__exit__`: `del get_memory_hooks()[self.name]` — removes
the entry under `n` if present (other entries keep their order), raises
`KeyError` (NotFoundError) leaving the dict unchanged if absent. -/
def hookExit (reg : Registry) (n : String) : Registry × Option PyErr :=
  if containsName reg n then (reg.eraseP (fun p => p.1 == n), none)
  else (reg, some (.notFound n))

/-- The `with hook:` statement around a block that does not touch the
registry but may raise (`bodyRaises`): run `__enter__`; if it raises,
the body and `__exit__` never run; otherwise run the body and then
`__exit__` on every exit path. An exception raised by `__exit__` itself
replaces the body's exception, as in Python. -/
def withHook (reg : Registry) (h : MemoryHook) (bodyRaises : Bool) :
    Registry × Option PyErr :=
  let r := hookEnter reg h
  if r.2.isSome then r
  else
    let r2 := hookExit r.1 h.name
    if r2.2.isSome then r2
    else (r2.1, if bodyRaises then some .bodyError else none)

/-- The `with hook:` statement around a block that may itself mutate the
thread's registry (`body`): `__enter__`, then the body, then `__exit__`
unconditionally. -/
def withHookBody (reg : Registry) (h : MemoryHook) (body : Registry → Registry) :
    Registry × Option PyErr :=
  let r := hookEnter reg h
  if r.2.isSome then r
  else hookExit (body r.1) h.name

/-- Registry well-formedness: no two entries share a name. -/
def wfRegistry (reg : Registry) : Prop := (hookNames reg).Nodup

instance (reg : Registry) : Decidable (wfRegistry reg) :=
  inferInstanceAs (Decidable (hookNames reg).Nodup)

/-- The six callback kinds a hook exposes. -/
inductive CallbackKind where
  | allocPre | allocPost | mallocPre | mallocPost | freePre | freePost
deriving DecidableEq, Repr

/-- One observable callback invocation: which hook (by registry key) and
which of its six callbacks was called. -/
structure Event where
  hookName : String
  kind : CallbackKind
deriving DecidableEq, Repr

/-- Fan-out of one callback over the registry: the pool iterates the
`OrderedDict`'s values in insertion order and calls the callback on each. -/
def fanout (reg : Registry) (k : CallbackKind) : List Event :=
  reg.map (fun p => ⟨p.1, k⟩)

/-- Modelled from the spec: `SingleDeviceMemoryPool.malloc` is not under
`src/`; this is the docstring pseudocode of `MemoryHook` (memory_hook.py):
call `malloc_preprocess` of all hooks; look for a cached free chunk; if
none is found, call `alloc_preprocess` for all hooks, do the actual device
allocation, call `alloc_postprocess` for all hooks; finally call
`malloc_postprocess` for all hooks. We record the trace of callback
invocations, parameterised by whether a cached chunk was found. -/
def mallocEvents (reg : Registry) (cacheHit : Bool) : List Event :=
  fanout reg .mallocPre ++
    (if cacheHit then [] else fanout reg .allocPre ++ fanout reg .allocPost) ++
    fanout reg .mallocPost

/-- The `threading.local` store: each thread id owns its registry; the
lazily-initialised missing entry is the empty dict. -/
abbrev ThreadLocal := Nat → Registry

/-- `get_memory_hooks()` as seen from thread `tid`. -/
def get_memory_hooks (tl : ThreadLocal) (tid : Nat) : Registry := tl tid

/-- `__enter__` executed on thread `tid`: only that thread's registry is
read and written. -/
def enterOn (tl : ThreadLocal) (tid : Nat) (h : MemoryHook) :
    ThreadLocal × Option PyErr :=
  let r := hookEnter (get_memory_hooks tl tid) h
  (fun t => if t = tid then r.1 else tl t, r.2)

/-- `__exit__` executed on thread `tid`. -/
def exitOn (tl : ThreadLocal) (tid : Nat) (n : String) :
    ThreadLocal × Option PyErr :=
  let r := hookExit (get_memory_hooks tl tid) n
  (fun t => if t = tid then r.1 else tl t, r.2)

/-- A pool-acquire performed on thread `tid` fans callbacks out over that
thread's registry only. -/
def mallocEventsOn (tl : ThreadLocal) (tid : Nat) (cacheHit : Bool) :
    List Event :=
  mallocEvents (get_memory_hooks tl tid) cacheHit

/-- The keyword arguments the six callbacks receive (`device_id`,
`size`, `mem_size`, `mem_ptr`, `pmem_id`); which ones are meaningful
depends on the callback. -/
structure KWArgs where
  device_id : Int := 0
  size : Int := 0
  mem_size : Int := 0
  mem_ptr : Int := 0
  pmem_id : Int := 0
deriving DecidableEq, Repr

/-- Default `MemoryHook.alloc_preprocess`: the body is `pass` — it returns
`None` and leaves any surrounding state untouched. -/
def MemoryHook.alloc_preprocess {σ : Type} (self : MemoryHook)
    (kwargs : KWArgs) (s : σ) : σ × Unit := (s, ())

/-- Default `MemoryHook.alloc_postprocess`: `pass`. -/
def MemoryHook.alloc_postprocess {σ : Type} (self : MemoryHook)
    (kwargs : KWArgs) (s : σ) : σ × Unit := (s, ())

/-- Default `MemoryHook.malloc_preprocess`: `pass`. -/
def MemoryHook.malloc_preprocess {σ : Type} (self : MemoryHook)
    (kwargs : KWArgs) (s : σ) : σ × Unit := (s, ())

/-- Default `MemoryHook.malloc_postprocess`: `pass`. -/
def MemoryHook.malloc_postprocess {σ : Type} (self : MemoryHook)
    (kwargs : KWArgs) (s : σ) : σ × Unit := (s, ())

/-- Default `MemoryHook.free_preprocess`: `pass`. -/
def MemoryHook.free_preprocess {σ : Type} (self : MemoryHook)
    (kwargs : KWArgs) (s : σ) : σ × Unit := (s, ())

/-- Default `MemoryHook.free_postprocess`: `pass`. -/
def MemoryHook.free_postprocess {σ : Type} (self : MemoryHook)
    (kwargs : KWArgs) (s : σ) : σ × Unit := (s, ())

/-! ### Helper lemmas -/

theorem containsName_iff (reg : Registry) (n : String) :
    containsName reg n = true ↔ n ∈ hookNames reg := by
  simp [containsName]

theorem containsName_false_iff (reg : Registry) (n : String) :
    containsName reg n = false ↔ n ∉ hookNames reg := by
  rw [← containsName_iff]
  cases containsName reg n <;> simp

theorem hookNames_append (r1 r2 : Registry) :
    hookNames (r1 ++ r2) = hookNames r1 ++ hookNames r2 := by
  simp [hookNames]

/-- If the fresh name is absent from `reg`, deleting it from
`reg ++ [(n, h)]` removes exactly the appended entry. -/
theorem eraseP_append_fresh (reg : Registry) (n : String) (h : MemoryHook)
    (hfresh : n ∉ hookNames reg) :
    (reg ++ [(n, h)]).eraseP (fun p => p.1 == n) = reg := by
  rw [List.eraseP_append_right]
  · simp
  · intro b hb
    simp only [beq_iff_eq]
    intro hbe
    exact hfresh (hbe ▸ List.mem_map_of_mem Prod.fst hb)

/-- In a duplicate-free name list, filtering for one present name yields
exactly that one occurrence. -/
theorem filter_names_eq (l : List String) (n : String)
    (hl : l.Nodup) (hn : n ∈ l) :
    l.filter (fun m => m == n) = [n] := by
  induction l with
  | nil => cases hn
  | cons a t ih =>
    rcases List.nodup_cons.mp hl with ⟨ha, ht⟩
    rcases List.mem_cons.mp hn with rfl | hn'
    · have ht0 : t.filter (fun m => m == n) = [] := by
        rw [List.filter_eq_nil_iff]
        intro b hb hbeq
        exact ha ((beq_iff_eq.mp hbeq) ▸ hb)
      simp [List.filter_cons, ht0]
    · have hna : (a == n) = false := by
        rw [beq_eq_false_iff_ne]
        intro hne
        exact ha (hne ▸ hn')
      simp only [List.filter_cons, hna, Bool.false_eq_true, if_false]
      exact ih ht hn'

theorem fanout_eq_map_names (reg : Registry) (k : CallbackKind) :
    fanout reg k = (hookNames reg).map (fun m => ⟨m, k⟩) := by
  simp [fanout, hookNames, List.map_map]

/-- Fan-out restricted to one registered hook in a well-formed registry. -/
theorem filter_fanout (reg : Registry) (k : CallbackKind) (n : String)
    (hw : wfRegistry reg) (hn : n ∈ hookNames reg) :
    (fanout reg k).filter (fun e => e.hookName == n) = [⟨n, k⟩] := by
  rw [fanout_eq_map_names, List.filter_map]
  have : ((fun e : Event => e.hookName == n) ∘ fun m => (⟨m, k⟩ : Event)) =
      fun m => m == n := rfl
  rw [this, filter_names_eq (hookNames reg) n hw hn]
  rfl

theorem mem_fanout_names (reg : Registry) (k : CallbackKind) (e : Event)
    (he : e ∈ fanout reg k) : e.hookName ∈ hookNames reg := by
  rw [fanout_eq_map_names] at he
  rcases List.mem_map.mp he with ⟨m, hm, rfl⟩
  exact hm

/-- `__enter__` on a registry that already holds the hook's name: the
duplicate-name error is raised and the registry is returned unchanged. -/
theorem hookEnter_contains (reg : Registry) (h : MemoryHook)
    (hdup : containsName reg h.name = true) :
    hookEnter reg h = (reg, some (.duplicateName h.name)) := by
  simp [hookEnter, hdup]

/-- A pair whose key differs from the erased name survives the erase. -/
theorem mem_eraseP_of_ne_name (reg : Registry) (n : String)
    (q : String × MemoryHook) (hq : q ∈ reg) (hne : q.1 ≠ n) :
    q ∈ reg.eraseP (fun p => p.1 == n) := by
  induction reg with
  | nil => cases hq
  | cons a t ih =>
    rw [List.eraseP_cons]
    by_cases han : (a.1 == n) = true
    · rw [han, cond_true]
      rcases List.mem_cons.mp hq with rfl | hq'
      · exact absurd (beq_iff_eq.mp han) hne
      · exact hq'
    · rw [Bool.eq_false_iff.mpr han, cond_false]
      rcases List.mem_cons.mp hq with rfl | hq'
      · exact List.mem_cons_self _ _
      · exact List.mem_cons_of_mem _ (ih hq')

/-- In a well-formed registry, the unique entry under a key is removed by
`eraseP` on that key. -/
theorem mem_eraseP_self (reg : Registry) (n : String) (h : MemoryHook)
    (hw : wfRegistry reg) (hm : (n, h) ∈ reg) :
    (n, h) ∉ reg.eraseP (fun p => p.1 == n) := by
  induction reg with
  | nil => cases hm
  | cons q t ih =>
    have hw' := hw
    unfold wfRegistry hookNames at hw'
    rw [List.map_cons, List.nodup_cons] at hw'
    obtain ⟨hq, ht⟩ := hw'
    rw [List.eraseP_cons]
    by_cases hqn : (q.1 == n) = true
    · rw [hqn, cond_true]
      intro hcon
      exact hq ((beq_iff_eq.mp hqn) ▸ List.mem_map_of_mem Prod.fst hcon)
    · rw [Bool.eq_false_iff.mpr hqn, cond_false]
      rcases List.mem_cons.mp hm with rfl | hm'
      · exact absurd (beq_self_eq_true n) hqn
      · intro hcon
        rcases List.mem_cons.mp hcon with rfl | hcon'
        · exact absurd (beq_self_eq_true n) hqn
        · exact ih ht hm' hcon'

/-! ### Concrete sample data for witnesses -/

def hookA : MemoryHook := ⟨1, "A"⟩

def hookA2 : MemoryHook := ⟨2, "A"⟩

def hookB : MemoryHook := ⟨2, "B"⟩

def regA : Registry := [("A", hookA)]

def tlSample : ThreadLocal := fun t => if t = 0 then regA else []

/-! ### Claim theorems -/

/-- C1: if a hook with `h`'s name is already registered in this thread's
registry, `__enter__` fails with the duplicate-name `KeyError`
(DuplicateNameError) and returns the registry unchanged: the previously
registered hook remains present under that name and there is no partial
registration. -/
theorem register_duplicate_fails (reg : Registry) (h : MemoryHook)
    (hdup : containsName reg h.name = true) :
    hookEnter reg h = (reg, some (.duplicateName h.name)) :=
  hookEnter_contains reg h hdup

theorem register_duplicate_fails_witness :
    containsName regA hookA2.name = true ∧
    hookEnter regA hookA2 = (regA, some (.duplicateName hookA2.name)) :=
  ⟨by decide, register_duplicate_fails regA hookA2 (by decide)⟩

/-- C2: on a pool acquire, a hook registered in a well-formed registry sees
exactly `malloc_preprocess` then `malloc_postprocess` on a cache hit
(`alloc_preprocess`/`alloc_postprocess` never fire), and exactly
`malloc_preprocess`, `alloc_preprocess`, `alloc_postprocess`,
`malloc_postprocess`, once each and in that order, on a cache miss. -/
theorem malloc_hook_callbacks (reg : Registry) (n : String)
    (hw : wfRegistry reg) (hn : n ∈ hookNames reg) :
    (mallocEvents reg true).filter (fun e => e.hookName == n) =
      [⟨n, .mallocPre⟩, ⟨n, .mallocPost⟩] ∧
    (mallocEvents reg false).filter (fun e => e.hookName == n) =
      [⟨n, .mallocPre⟩, ⟨n, .allocPre⟩, ⟨n, .allocPost⟩, ⟨n, .mallocPost⟩] := by
  constructor
  · simp [mallocEvents, List.filter_append, filter_fanout reg _ n hw hn]
  · simp [mallocEvents, List.filter_append, filter_fanout reg _ n hw hn]

theorem malloc_hook_callbacks_witness :
    wfRegistry regA ∧ "A" ∈ hookNames regA ∧
    ((mallocEvents regA true).filter (fun e => e.hookName == "A") =
      [⟨"A", .mallocPre⟩, ⟨"A", .mallocPost⟩] ∧
    (mallocEvents regA false).filter (fun e => e.hookName == "A") =
      [⟨"A", .mallocPre⟩, ⟨"A", .allocPre⟩, ⟨"A", .allocPost⟩,
        ⟨"A", .mallocPost⟩]) :=
  ⟨by decide, by decide, malloc_hook_callbacks regA "A" (by decide) (by decide)⟩

/-- C3: for a hook whose name is not yet registered, the `with` scope
registers it on entry and unregisters it on every exit path — normal exit
or a failure raised inside the block — so the registry after the scope
equals the registry before it, and the only surviving exception is the
body's own. -/
theorem scoped_registration_identity (reg : Registry) (h : MemoryHook)
    (b : Bool) (hfresh : containsName reg h.name = false) :
    withHook reg h b = (reg, if b then some PyErr.bodyError else none) := by
  have hmem : h.name ∉ hookNames reg := (containsName_false_iff reg h.name).mp hfresh
  have hcont : containsName (reg ++ [(h.name, h)]) h.name = true := by
    rw [containsName_iff, hookNames_append]
    simp [hookNames]
  have herase := eraseP_append_fresh reg h.name h hmem
  simp [withHook, hookEnter, hookExit, hfresh, hcont, herase]

theorem scoped_registration_identity_witness :
    containsName ([] : Registry) hookA.name = false ∧
    withHook [] hookA true = ([], if true then some PyErr.bodyError else none) :=
  ⟨by decide, scoped_registration_identity [] hookA true (by decide)⟩

/-- C4: unregistering a name that is not present in this thread's registry
fails with the not-found `KeyError` (NotFoundError) and leaves the
registry unchanged. -/
theorem unregister_absent_fails (reg : Registry) (n : String)
    (habs : containsName reg n = false) :
    hookExit reg n = (reg, some (.notFound n)) := by
  simp [hookExit, habs]

theorem unregister_absent_fails_witness :
    containsName regA "B" = false ∧
    hookExit regA "B" = (regA, some (.notFound "B")) :=
  ⟨by decide, unregister_absent_fails regA "B" (by decide)⟩

/-- C5: every callback fan-out visits the hooks in registry iteration
order, which is the same for all six callback kinds (pre- and post-phases
alike), and registering a fresh hook appends its name at the end, so
iteration order is registration order. -/
theorem fanout_insertion_order (reg : Registry) (h : MemoryHook)
    (hfresh : containsName reg h.name = false) :
    (∀ k : CallbackKind, (fanout reg k).map Event.hookName = hookNames reg) ∧
    hookNames (hookEnter reg h).1 = hookNames reg ++ [h.name] := by
  constructor
  · intro k
    simp [fanout, hookNames, List.map_map]
  · simp [hookEnter, hfresh, hookNames]

theorem fanout_insertion_order_witness :
    containsName regA hookB.name = false ∧
    ((∀ k : CallbackKind, (fanout regA k).map Event.hookName = hookNames regA) ∧
    hookNames (hookEnter regA hookB).1 = hookNames regA ++ [hookB.name]) :=
  ⟨by decide, fanout_insertion_order regA hookB (by decide)⟩

/-- C6: registry operations performed on thread `tidA` leave any other
thread `tidB`'s registry unchanged, and a pool acquire on thread `tidB`
only ever invokes hooks registered in `tidB`'s own registry. -/
theorem thread_isolation (tl : ThreadLocal) (tidA tidB : Nat)
    (h : MemoryHook) (n : String) (cacheHit : Bool) (hne : tidB ≠ tidA) :
    (enterOn tl tidA h).1 tidB = tl tidB ∧
    (exitOn tl tidA n).1 tidB = tl tidB ∧
    ∀ e ∈ mallocEventsOn tl tidB cacheHit,
      e.hookName ∈ hookNames (get_memory_hooks tl tidB) := by
  refine ⟨?_, ?_, ?_⟩
  · simp [enterOn, hne]
  · simp [exitOn, hne]
  · intro e he
    unfold mallocEventsOn mallocEvents at he
    rcases List.mem_append.mp he with he1 | hpost
    · rcases List.mem_append.mp he1 with hpre | hmid
      · exact mem_fanout_names _ _ _ hpre
      · cases cacheHit with
        | true => simp at hmid
        | false =>
          simp only [Bool.false_eq_true, if_false] at hmid
          rcases List.mem_append.mp hmid with h1 | h2
          · exact mem_fanout_names _ _ _ h1
          · exact mem_fanout_names _ _ _ h2
    · exact mem_fanout_names _ _ _ hpost

theorem thread_isolation_witness :
    (1 : Nat) ≠ 0 ∧
    ((enterOn tlSample 0 hookB).1 1 = tlSample 1 ∧
    (exitOn tlSample 0 "A").1 1 = tlSample 1 ∧
    ∀ e ∈ mallocEventsOn tlSample 1 false,
      e.hookName ∈ hookNames (get_memory_hooks tlSample 1)) :=
  ⟨by decide, thread_isolation tlSample 0 1 hookB "A" false (by decide)⟩

/-- C7: the no-duplicate-names invariant holds for the freshly created
registry and is preserved by `__enter__` and by `__exit__`. -/
theorem registry_nodup_invariant (reg : Registry) (h : MemoryHook)
    (n : String) (hw : wfRegistry reg) :
    wfRegistry ([] : Registry) ∧ wfRegistry (hookEnter reg h).1 ∧
    wfRegistry (hookExit reg n).1 := by
  refine ⟨List.nodup_nil, ?_, ?_⟩
  · by_cases hc : containsName reg h.name = true
    · simpa [hookEnter, hc] using hw
    · have hc' : containsName reg h.name = false := by
        cases hcc : containsName reg h.name
        · rfl
        · exact absurd hcc hc
      have hmem := (containsName_false_iff reg h.name).mp hc'
      simp only [hookEnter, hc', Bool.false_eq_true, if_false]
      unfold wfRegistry
      rw [hookNames_append]
      rw [List.nodup_append]
      refine ⟨hw, List.nodup_singleton _, ?_⟩
      intro a ha1 ha2
      rcases List.mem_singleton.mp ha2 with rfl
      exact hmem ha1
  · by_cases hc : containsName reg n = true
    · simp only [hookExit, hc, if_true]
      exact List.Nodup.sublist ((List.eraseP_sublist reg).map Prod.fst) hw
    · have hc' : containsName reg n = false := by
        cases hcc : containsName reg n
        · rfl
        · exact absurd hcc hc
      simpa [hookExit, hc'] using hw

theorem registry_nodup_invariant_witness :
    wfRegistry regA ∧
    (wfRegistry ([] : Registry) ∧ wfRegistry (hookEnter regA hookB).1 ∧
    wfRegistry (hookExit regA "A").1) :=
  ⟨by decide, registry_nodup_invariant regA hookB "A" (by decide)⟩

/-- C8: the six default callbacks are no-ops for every hook, every
keyword-argument set and every surrounding state: each returns `None` and
leaves the state untouched, so subclasses only override what they need. -/
theorem default_callbacks_noop {σ : Type} (h : MemoryHook)
    (kwargs : KWArgs) (s : σ) :
    h.alloc_preprocess kwargs s = (s, ()) ∧
    h.alloc_postprocess kwargs s = (s, ()) ∧
    h.malloc_preprocess kwargs s = (s, ()) ∧
    h.malloc_postprocess kwargs s = (s, ()) ∧
    h.free_preprocess kwargs s = (s, ()) ∧
    h.free_postprocess kwargs s = (s, ()) :=
  ⟨rfl, rfl, rfl, rfl, rfl, rfl⟩

/-- C9: a hook that does not override `name` gets the class-level default
`'MemoryHook'`; hence two hooks that both keep the default name — whatever
their ids — cannot be registered on the same thread at once: the second
registration fails with the duplicate-name error and changes nothing. -/
theorem default_name_collision (reg : Registry) (i : Nat)
    (h1 h2 : MemoryHook) (h1d : h1.name = "MemoryHook")
    (h2d : h2.name = "MemoryHook") :
    ({ hookId := i } : MemoryHook).name = "MemoryHook" ∧
    (hookEnter (hookEnter reg h1).1 h2).2 =
      some (PyErr.duplicateName "MemoryHook") ∧
    (hookEnter (hookEnter reg h1).1 h2).1 = (hookEnter reg h1).1 := by
  have hmem : h1.name ∈ hookNames (hookEnter reg h1).1 := by
    by_cases hc : containsName reg h1.name = true
    · simp only [hookEnter, hc, if_true]
      exact (containsName_iff reg h1.name).mp hc
    · have hc' : containsName reg h1.name = false := by
        cases hcc : containsName reg h1.name
        · rfl
        · exact absurd hcc hc
      simp only [hookEnter, hc', Bool.false_eq_true, if_false]
      rw [hookNames_append]
      simp [hookNames]
  have hcont : containsName (hookEnter reg h1).1 h2.name = true := by
    rw [containsName_iff, h2d, ← h1d]
    exact hmem
  have hd := hookEnter_contains (hookEnter reg h1).1 h2 hcont
  refine ⟨rfl, ?_, ?_⟩
  · rw [hd, h2d]
  · rw [hd]

theorem default_name_collision_witness :
    ({ hookId := 1 } : MemoryHook).name = "MemoryHook" ∧
    ({ hookId := 2 } : MemoryHook).name = "MemoryHook" ∧
    (({ hookId := 3 } : MemoryHook).name = "MemoryHook" ∧
    (hookEnter (hookEnter [] { hookId := 1 }).1 { hookId := 2 }).2 =
      some (PyErr.duplicateName "MemoryHook") ∧
    (hookEnter (hookEnter [] { hookId := 1 }).1 { hookId := 2 }).1 =
      (hookEnter ([] : Registry) { hookId := 1 }).1) :=
  ⟨rfl, rfl, default_name_collision [] 3 { hookId := 1 } { hookId := 2 } rfl rfl⟩

/-- C10: `__exit__` deletes by name unconditionally. If the body of the
`with` block removed the entry under the hook's name, exiting the scope
raises the not-found `KeyError` instead of being a no-op; if a (possibly
different) hook occupies that name at exit, that entry is the one removed
while every entry under another name survives. -/
theorem scope_exit_unconditional (reg : Registry) (h h2 : MemoryHook)
    (body : Registry → Registry)
    (hfresh : containsName reg h.name = false) :
    (containsName (body (reg ++ [(h.name, h)])) h.name = false →
      withHookBody reg h body =
        (body (reg ++ [(h.name, h)]), some (PyErr.notFound h.name))) ∧
    (wfRegistry (body (reg ++ [(h.name, h)])) →
      (h.name, h2) ∈ body (reg ++ [(h.name, h)]) →
      (withHookBody reg h body).2 = none ∧
      (h.name, h2) ∉ (withHookBody reg h body).1 ∧
      ∀ p ∈ body (reg ++ [(h.name, h)]), p.1 ≠ h.name →
        p ∈ (withHookBody reg h body).1) := by
  have he : hookEnter reg h = (reg ++ [(h.name, h)], none) := by
    simp [hookEnter, hfresh]
  constructor
  · intro habs
    simp [withHookBody, he, hookExit, habs]
  · intro hw2 hm2
    have hcont : containsName (body (reg ++ [(h.name, h)])) h.name = true := by
      rw [containsName_iff]
      exact List.mem_map_of_mem Prod.fst hm2
    have hwhb : withHookBody reg h body =
        ((body (reg ++ [(h.name, h)])).eraseP (fun p => p.1 == h.name),
          none) := by
      simp [withHookBody, he, hookExit, hcont]
    refine ⟨by rw [hwhb], ?_, ?_⟩
    · rw [hwhb]
      exact mem_eraseP_self _ _ _ hw2 hm2
    · intro p hp hpne
      rw [hwhb]
      exact mem_eraseP_of_ne_name _ h.name p hp hpne

theorem scope_exit_unconditional_witness :
    containsName ([] : Registry) hookA.name = false ∧
    (containsName ([] : Registry) hookA.name = false ∧
      withHookBody [] hookA (fun _ => []) =
        (([] : Registry), some (PyErr.notFound hookA.name))) ∧
    (wfRegistry [(hookA.name, hookA2)] ∧
      (hookA.name, hookA2) ∈ [(hookA.name, hookA2)] ∧
      ((withHookBody [] hookA (fun _ => [(hookA.name, hookA2)])).2 = none ∧
        (hookA.name, hookA2) ∉
          (withHookBody [] hookA (fun _ => [(hookA.name, hookA2)])).1 ∧
        ∀ p ∈ [(hookA.name, hookA2)], p.1 ≠ hookA.name →
          p ∈ (withHookBody [] hookA (fun _ => [(hookA.name, hookA2)])).1)) :=
  ⟨by decide,
    ⟨by decide,
      (scope_exit_unconditional [] hookA hookA2 (fun _ => [])
        (by decide)).1 (by decide)⟩,
    ⟨by decide, by decide,
      (scope_exit_unconditional [] hookA hookA2 (fun _ => [(hookA.name, hookA2)])
        (by decide)).2 (by decide) (by decide)⟩⟩

end MemoryHookSpec
